import Mathlib

/-!
Verification development for the nigbms repository.

The numeric payload of PyTorch tensors and PETSc vectors/matrices is
modelled over `ℚ` (exact rational arithmetic standing in for the
floating-point field); a 2-D tensor is a list of rows.  Fallible Python
code (raising exceptions) is modelled with `Except String`.
-/

namespace Nigbms

instance {ε α : Type} [DecidableEq ε] [DecidableEq α] : DecidableEq (Except ε α) :=
  fun a b =>
    match a, b with
    | .ok a, .ok b =>
        if h : a = b then .isTrue (by rw [h]) else .isFalse (by intro hc; cases hc; exact h rfl)
    | .error e, .error f =>
        if h : e = f then .isTrue (by rw [h]) else .isFalse (by intro hc; cases hc; exact h rfl)
    | .ok _, .error _ => .isFalse (by intro hc; cases hc)
    | .error _, .ok _ => .isFalse (by intro hc; cases hc)

/-- A 2-D PyTorch tensor `[rows, cols]`, modelled as a list of rows over `ℚ`. -/
abbrev Tensor := List (List ℚ)

/-- Elementwise tensor addition (`a + b`). -/
def addT (a b : Tensor) : Tensor := List.zipWith (List.zipWith (· + ·)) a b

/-- Elementwise tensor subtraction (`a - b`). -/
def subT (a b : Tensor) : Tensor := List.zipWith (List.zipWith (· - ·)) a b

/-- Scalar multiplication (`c * t`). -/
def scaleT (c : ℚ) (t : Tensor) : Tensor := t.map (List.map (fun q => c * q))

/-- Elementwise division by a scalar (`t / c`). -/
def divScalarT (c : ℚ) (t : Tensor) : Tensor := t.map (List.map (fun q => q / c))

/-- `torch.zeros_like(t)`. -/
def zeros_like (t : Tensor) : Tensor := t.map (List.map (fun _ => (0 : ℚ)))

/-- Row dot product: `(a * b).sum()` for two rows of equal length. -/
def dot (a b : List ℚ) : ℚ := (List.zipWith (· * ·) a b).sum

/-- `torch.sum(a * b, dim=1, keepdim=True)`: per-row dot products of two
`[N, m]` tensors, the keepdim column stored as a flat list of scalars. -/
def rowDots (a b : Tensor) : List ℚ := List.zipWith dot a b

/-- Broadcast product `s * m` of an `[N, 1]` column `s` against an `[N, dim]`
tensor `m`: row `i` of `m` scaled by `s i`. -/
def rowScale (s : List ℚ) (m : Tensor) : Tensor :=
  List.zipWith (fun c r => r.map (fun q => c * q)) s m

/-- A dual number (value, tangent) as propagated by
`torch.autograd.forward_ad`. -/
abbrev Dual := ℚ × ℚ

/-- Dual-number addition. -/
def dualAdd (a b : Dual) : Dual := (a.1 + b.1, a.2 + b.2)

/-- Dual-number multiplication: `(a, da) * (b, db) = (a*b, a*db + da*b)`. -/
def dualMul (a b : Dual) : Dual := (a.1 * b.1, a.1 * b.2 + a.2 * b.1)

/-- A 2-D tensor of dual numbers (a tensor inside `fwAD.dual_level`). -/
abbrev DTensor := List (List Dual)

/-- `fwAD.make_dual(x, v)`: pair the primal tensor with its tangent. -/
def make_dual (x v : Tensor) : DTensor := List.zipWith (List.zipWith Prod.mk) x v

/-- `fwAD.unpack_dual`: split a dual tensor into (primal, tangent). -/
def unpack_dual (t : DTensor) : Tensor × Tensor :=
  (t.map (List.map Prod.fst), t.map (List.map Prod.snd))

/-- Evaluation of a dual-arithmetic function on a plain tensor (zero
tangent), as when the Python callable is applied outside a dual level. -/
def fEval (f : DTensor → DTensor) (x : Tensor) : Tensor :=
  (unpack_dual (f (make_dual x (zeros_like x)))).1

/-- `jvp(f, x, v, jvp_type, eps)` from `nigbms/modules/wrapper.py`:
directional-derivative primitive returning `(f(x), D_v f(x))`, raising
`NotImplementedError` on an unrecognized `jvp_type`. -/
def jvp (f : DTensor → DTensor) (x v : Tensor) (jvp_type : String) (eps : ℚ) :
    Except String (Tensor × Tensor) :=
  if jvp_type = "forwardAD" then
    let dual_input := make_dual x v
    let dual_output := f dual_input
    .ok (unpack_dual dual_output)
  else if jvp_type = "forwardFD" then
    let y := fEval f x
    let y_plus := fEval f (addT x (scaleT eps v))
    let dvf := divScalarT eps (subT y_plus y)
    .ok (y, dvf)
  else if jvp_type = "centralFD" then
    let y := fEval f x
    let y_plus := fEval f (addT x (scaleT eps v))
    let y_minus := fEval f (subT x (scaleT eps v))
    let dvf := divScalarT (2 * eps) (subT y_plus y_minus)
    .ok (y, dvf)
  else
    .error "NotImplementedError"

/-- `sphere(tensor) = torch.sum(tensor**2, dim=-1, keepdim=True)` from
`nigbms/train/minimize_testfunctions.py`, in dual arithmetic. -/
def sphere (t : DTensor) : DTensor :=
  t.map (fun row => [row.foldr (fun a s => dualAdd (dualMul a a) s) ((0 : ℚ), (0 : ℚ))])

/-- A PyTorch tensor together with its autograd tracking flag; `detach`
clears the flag while sharing the numeric data. -/
structure TensorG where
  data : Tensor
  requires_grad : Bool

/-- `Tensor.detach()`: same numeric data, removed from the autograd graph. -/
def TensorG.detach (t : TensorG) : TensorG := { data := t.data, requires_grad := false }

/-- The estimator context `d` passed to `register_custom_grad_fn`:
`dictionary with keys: y, dvf, y_hat, dvf_hat, grad_type` (plus `v`,
`v_scale`, `Nv` consumed by backward).  The opaque autograd engine calls
`grad(d["y"], x, grad_outputs=grad_y)` and `grad(d["y_hat"], x,
grad_outputs=grad_y)` are modelled by the fields `gradY` and `gradYhat`:
fallible functions of the upstream gradient, standing for differentiation
through the stored computation graphs of `y` and `y_hat`. -/
structure GradDict where
  y : TensorG
  dvf : Tensor
  y_hat : TensorG
  dvf_hat : Tensor
  v : Tensor
  v_scale : ℚ
  Nv : ℕ
  grad_type : String
  gradY : Tensor → Except String Tensor
  gradYhat : Tensor → Except String Tensor

/-- The autograd `ctx` of the custom function after `forward` ran:
`ctx.save_for_backward(x, d["v"])` and `ctx.d = d`. -/
structure FnCtx where
  saved : Tensor × Tensor
  d : GradDict

/-- The column count of a 2-D tensor: the length of its first row
(the second component of `x.shape`). -/
def numCols (t : Tensor) : ℕ := (t.headD []).length

/-- Sum of a list of equally-shaped matrices (the reduction underlying
`mean(dim=0)` on a `[Nv, bs, dim]` tensor). -/
def sumDim0 : List Tensor → Tensor
  | [] => []
  | [m] => m
  | m :: ms => addT m (sumDim0 ms)

/-- `mean(dim=0)` on a stack of matrices. -/
def meanDim0 (t : List Tensor) : Tensor :=
  (sumDim0 t).map (List.map (fun q => q / (t.length : ℚ)))

/-- `reshape(Nv, bs, dim)` of an `[Nv*bs, dim]` tensor (row-major), erroring
when the element count does not match. -/
def reshape3 (Nv bs dim : ℕ) (m : Tensor) : Option (List Tensor) :=
  if m.length = Nv * bs ∧ (∀ r ∈ m, r.length = dim) then
    some ((List.range Nv).map (fun k => (List.range bs).map (fun i => m.getD (k * bs + i) [])))
  else none

/-- `t.reshape(Nv, bs, dim).mean(dim=0)`. -/
def reshapeMean (Nv bs dim : ℕ) (m : Tensor) : Option Tensor :=
  (reshape3 Nv bs dim m).map meanDim0

namespace register_custom_grad_fn

/-- `register_custom_grad_fn.forward(ctx, x, d)`: stores the estimator
context `d`, saves `(x, d["v"])` for backward, and returns `d["y"].detach()`. -/
def forward (x : TensorG) (d : GradDict) : TensorG × FnCtx :=
  (d.y.detach, { saved := (x.data, d.v), d := d })

/-- `register_custom_grad_fn.backward(ctx, grad_y)`: dispatches on
`d["grad_type"]`.  Only the `f_true` branch wraps its autograd call in
`try/except` (zero gradient on failure); the `f_hat_true` gradient call on
the `f_hat_true`/`cv_fwd` paths is not wrapped, so its exception
propagates.  The trailing gradient returned for `d` (Python `None`) is
omitted. -/
def backward (ctx : FnCtx) (grad_y : Tensor) : Except String Tensor :=
  let x := ctx.saved.1
  let v := scaleT ctx.d.v_scale ctx.saved.2
  let bs := x.length
  let in_dim := numCols x
  let d := ctx.d
  if d.grad_type = "f_true" then
    match d.gradY grad_y with
    | .ok f_true => .ok f_true
    | .error _ => .ok (zeros_like x)
  else
    match reshapeMean d.Nv bs in_dim (rowScale (rowDots grad_y d.dvf) v) with
    | none => .error "RuntimeError"
    | some f_fwd =>
      if d.grad_type = "f_fwd" then .ok f_fwd
      else
        match reshapeMean d.Nv bs in_dim (rowScale (rowDots grad_y d.dvf_hat) v) with
        | none => .error "RuntimeError"
        | some f_hat_fwd =>
          match d.gradYhat grad_y with
          | .error e => .error e
          | .ok g =>
            let f_hat_true := divScalarT (d.Nv : ℚ) g
            if d.grad_type = "f_hat_true" then .ok f_hat_true
            else if d.grad_type = "cv_fwd" then .ok (subT f_fwd (subT f_hat_fwd f_hat_true))
            else .error "NotImplementedError"

end register_custom_grad_fn

/-- `TaskParams`: the (empty) base dataclass of parameters used to generate
a task; the `params` field of a task holds either such an object or `None`. -/
structure TaskParams where
deriving DecidableEq

/-- Column indices and values of the nonzero entries of a dense row,
numbering columns from `k`: the per-row content of
`Tensor.to_sparse_csr()` (only nonzeros are stored, in column order). -/
def rowNNZ : ℕ → List ℚ → List (ℕ × ℚ)
  | _, [] => []
  | k, a :: t => if a = 0 then rowNNZ (k + 1) t else (k, a) :: rowNNZ (k + 1) t

/-- The `(i, j)` dense entry contributed by a CSR row slice of
(column, value) pairs: values whose column index is `j` are accumulated. -/
def sliceEntry : List (ℕ × ℚ) → ℕ → ℚ
  | [], _ => 0
  | p :: ps, j => (if p.1 = j then p.2 else 0) + sliceEntry ps j

/-- A PETSc AIJ (CSR) sparse matrix: size plus the
(row offsets, column indices, values) triple of `getValuesCSR`. -/
structure PETScMat where
  nrows : ℕ
  ncols : ℕ
  rowptr : List ℕ
  colidx : List ℕ
  values : List ℚ

/-- The (column, value) pairs of row `i`, delimited by
`rowptr[i] .. rowptr[i+1]`. -/
def PETScMat.rowSlice (m : PETScMat) (i : ℕ) : List (ℕ × ℚ) :=
  let s := m.rowptr.getD i 0
  let e := m.rowptr.getD (i + 1) 0
  ((m.colidx.zip m.values).drop s).take (e - s)

/-- `sparse_csr_tensor(row_idx, col_idx, values, size).to_dense()`. -/
def PETScMat.toDense (m : PETScMat) : Tensor :=
  (List.range m.nrows).map (fun i =>
    (List.range m.ncols).map (fun j => sliceEntry (m.rowSlice i) j))

/-- PETSc `Mat.equal` (external library, per spec section 3: element-wise
numerical equality): same sizes and numerically equal entries. -/
def PETScMat.equal (a b : PETScMat) : Bool :=
  decide (a.nrows = b.nrows ∧ a.ncols = b.ncols ∧ a.toDense = b.toDense)

/-- A dense 2-D PyTorch tensor together with its shape: a torch tensor
carries `A.shape = (nrows, ncols)` as part of the value (also when
`nrows = 0`), and a well-formed tensor has `rows.length = nrows` with every
row of length `ncols`. -/
structure DenseMat where
  nrows : ℕ
  ncols : ℕ
  rows : List (List ℚ)
deriving DecidableEq

/-- `task.A.cpu().to_sparse_csr()` followed by
`PETSc.Mat().createAIJ(size=A_sp.shape)` / `setValuesCSR(I, J, V)`:
a dense tensor converted to CSR.  The PETSc matrix size is the tensor
shape `A_sp.shape`; the row offsets are the cumulative counts of nonzeros
per row (`crow_indices`, one offset per tensor row plus one). -/
def dense2csr (A : DenseMat) : PETScMat :=
  { nrows := A.nrows,
    ncols := A.ncols,
    rowptr := (List.range (A.nrows + 1)).map
      (fun i => ((A.rows.take i).map (fun r => (rowNNZ 0 r).length)).sum),
    colidx := (A.rows.map (fun r => (rowNNZ 0 r).map Prod.fst)).flatten,
    values := (A.rows.map (fun r => (rowNNZ 0 r).map Prod.snd)).flatten }

/-- Python `int()` applied to a real scalar: truncation toward zero. -/
def truncInt (q : ℚ) : ℤ := if 0 ≤ q then ⌊q⌋ else ⌈q⌉

/-- `np.isclose(a, b)` with NumPy defaults `atol = 1e-8`, `rtol = 1e-5`. -/
def npIsClose (a b : ℚ) : Bool :=
  decide (|a - b| ≤ 1 / 100000000 + (1 / 100000) * |b|)

/-- `PyTorchLinearSystemTask`: dense-tensor linear-system task.  `A` is a
dense matrix tensor (with its shape); `rtol` and `maxiter` are scalar
tensors (their numeric payload over `ℚ`). -/
structure PyTorchLinearSystemTask where
  params : Option TaskParams := none
  A : DenseMat
  b : List ℚ
  x : Option (List ℚ)
  rtol : ℚ
  maxiter : ℚ

/-- `PETScLinearSystemTask`: sparse-operator task.  `rtol` is a Python
float and `maxiter` a Python int; `problem` is a keep-alive placeholder. -/
structure PETScLinearSystemTask where
  params : Option TaskParams := none
  A : PETScMat
  b : List ℚ
  x : Option (List ℚ)
  rtol : ℚ
  maxiter : ℤ
  problem : Option Unit := none

/-- `PyTorchLinearSystemTask.__eq__`: a short-circuit conjunction of
`torch.equal` checks (`torch.equal` is true iff the tensors have the same
size and the same elements).  When exactly one side's ground truth `x` is
`None`,
the guard `(self.x is None and other.x is None)` is false and
`torch.equal(self.x, other.x)` is evaluated with a `None` argument, which
raises `TypeError`. -/
def PyTorchLinearSystemTask.eq (s o : PyTorchLinearSystemTask) : Except String Bool :=
  if s.A ≠ o.A then .ok false
  else if s.b ≠ o.b then .ok false
  else
    match s.x, o.x with
    | none, none => .ok (decide (s.rtol = o.rtol) && decide (s.maxiter = o.maxiter))
    | some sx, some ox =>
        if sx = ox then .ok (decide (s.rtol = o.rtol) && decide (s.maxiter = o.maxiter))
        else .ok false
    | _, _ => .error "TypeError"

/-- `PETScLinearSystemTask.__eq__`: `A.equal`, `b.equal`, the ground-truth
guard, `np.isclose` on `rtol` and `==` on `maxiter`.  A `None`/present
mismatch on `x` raises: `AttributeError` when `self.x` is `None`
(`None.equal`), `TypeError` when `other.x` is `None` (`Vec.equal(None)`). -/
def PETScLinearSystemTask.eq (s o : PETScLinearSystemTask) : Except String Bool :=
  if ¬ s.A.equal o.A then .ok false
  else if s.b ≠ o.b then .ok false
  else
    match s.x, o.x with
    | none, none => .ok (npIsClose s.rtol o.rtol && decide (s.maxiter = o.maxiter))
    | some sx, some ox =>
        if sx = ox then .ok (npIsClose s.rtol o.rtol && decide (s.maxiter = o.maxiter))
        else .ok false
    | none, some _ => .error "AttributeError"
    | some _, none => .error "TypeError"

/-- `petsc2torch(task)`: CSR matrix densified, vectors wrapped as tensors,
`params` copied through, `rtol`/`maxiter` wrapped with `tensor(...)`. -/
def petsc2torch (task : PETScLinearSystemTask) : PyTorchLinearSystemTask :=
  { params := task.params,
    A := ⟨task.A.nrows, task.A.ncols, task.A.toDense⟩,
    b := task.b,
    x := task.x,
    rtol := task.rtol,
    maxiter := (task.maxiter : ℚ) }

/-- `torch2petsc(task)`: dense matrix converted to CSR, vectors wrapped
with `createWithArray`, `rtol := float(task.rtol)`,
`maxiter := int(task.maxiter)`; `params` is not passed, so it takes the
dataclass default `None`. -/
def torch2petsc (task : PyTorchLinearSystemTask) : PETScLinearSystemTask :=
  { params := none,
    A := dense2csr task.A,
    b := task.b,
    x := task.x,
    rtol := task.rtol,
    maxiter := truncInt task.maxiter,
    problem := none }

/-- `m` is a well-formed `[bs, dim]` matrix. -/
def IsMat (bs dim : ℕ) (m : Tensor) : Prop :=
  m.length = bs ∧ ∀ r ∈ m, r.length = dim

/-- The spec formula for the forward-gradient estimate: entry `(i, j)` is
the mean over the `Nv` probe replicas of
`(upstream_gradient · dvf) * (v_scale * v)`, the replica `k` of original
sample `i` sitting at row `k * bs + i` of the replicated batch. -/
def fwdGradFormula (grad_y dvf v : Tensor) (v_scale : ℚ) (Nv bs dim : ℕ) : Tensor :=
  (List.range bs).map (fun i =>
    (List.range dim).map (fun j =>
      ((List.range Nv).map (fun k =>
        dot (grad_y.getD (k * bs + i) []) (dvf.getD (k * bs + i) []) *
          (v_scale * ((v.getD (k * bs + i) []).getD j 0)))).sum / (Nv : ℚ)))

/-! General list lemmas used throughout the development. -/

theorem getD_map_of_lt {α β : Type} (f : α → β) (l : List α) (i : ℕ) (d : α) (e : β)
    (h : i < l.length) : (l.map f).getD i e = f (l.getD i d) := by
  rw [List.getD_eq_getElem _ _ (by simpa using h), List.getD_eq_getElem _ _ h, List.getElem_map]

theorem getD_zipWith_of_lt {α β γ : Type} (f : α → β → γ) (a : List α) (b : List β) (i : ℕ)
    (da : α) (db : β) (dc : γ) (ha : i < a.length) (hb : i < b.length) :
    (List.zipWith f a b).getD i dc = f (a.getD i da) (b.getD i db) := by
  rw [List.getD_eq_getElem _ _ (by simp [List.length_zipWith]; omega),
    List.getD_eq_getElem _ _ ha, List.getD_eq_getElem _ _ hb, List.getElem_zipWith]

theorem getD_range_map {α : Type} (f : ℕ → α) (n i : ℕ) (d : α) (h : i < n) :
    ((List.range n).map f).getD i d = f i := by
  rw [getD_map_of_lt f _ i 0 d (by simpa using h), List.getD_eq_getElem _ _ (by simpa using h),
    List.getElem_range]

theorem range_map_getD {α : Type} (l : List α) (d : α) :
    (List.range l.length).map (fun i => l.getD i d) = l := by
  induction l with
  | nil => rfl
  | cons a t ih =>
      simp only [List.length_cons, List.range_succ_eq_map, List.map_cons, List.map_map,
        List.getD_cons_zero]
      refine congrArg (a :: ·) ?_
      have hc : ((fun i => (a :: t).getD i d) ∘ Nat.succ) = fun i => t.getD i d := by
        funext i
        simp [List.getD_cons_succ]
      rw [hc, ih]

theorem ext_getD {α : Type} (a b : List α) (d : α) (hl : a.length = b.length)
    (h : ∀ i, i < a.length → a.getD i d = b.getD i d) : a = b := by
  refine List.ext_getElem hl (fun n h1 h2 => ?_)
  have hn := h n h1
  rwa [List.getD_eq_getElem _ _ h1, List.getD_eq_getElem _ _ h2] at hn

theorem zip_map_fst_snd {α β : Type} (l : List (α × β)) :
    (l.map Prod.fst).zip (l.map Prod.snd) = l := by
  induction l with
  | nil => rfl
  | cons p t ih => simp [List.zip_cons_cons, ih]

theorem mem_row_length {dim : ℕ} {m : Tensor} (h : ∀ r ∈ m, r.length = dim) {i : ℕ}
    (hi : i < m.length) : (m.getD i []).length = dim := by
  rw [List.getD_eq_getElem _ _ hi]
  exact h _ (List.getElem_mem hi)

/-! Shapes and entries of the reshape/mean pipeline. -/

theorem idx_bound {k Nv i bs : ℕ} (hk : k < Nv) (hi : i < bs) : k * bs + i < Nv * bs :=
  calc k * bs + i < k * bs + bs := by omega
  _ = (k + 1) * bs := by ring
  _ ≤ Nv * bs := Nat.mul_le_mul_right bs hk

theorem addT_isMat {bs dim : ℕ} {a b : Tensor} (ha : IsMat bs dim a) (hb : IsMat bs dim b) :
    IsMat bs dim (addT a b) := by
  constructor
  · simp [addT, List.length_zipWith, ha.1, hb.1]
  · intro r hr
    simp only [addT] at hr
    obtain ⟨n, hn, hr⟩ := List.mem_iff_getElem.1 hr
    rw [List.length_zipWith] at hn
    have hn2 : n < a.length := lt_of_lt_of_le hn inf_le_left
    have hn3 : n < b.length := lt_of_lt_of_le hn inf_le_right
    rw [← hr, List.getElem_zipWith, List.length_zipWith,
      ha.2 _ (List.getElem_mem hn2), hb.2 _ (List.getElem_mem hn3)]
    simp

theorem addT_entry {bs dim : ℕ} {a b : Tensor} (ha : IsMat bs dim a) (hb : IsMat bs dim b)
    {i j : ℕ} (hi : i < bs) (hj : j < dim) :
    (((addT a b).getD i []).getD j 0) = ((a.getD i []).getD j 0) + ((b.getD i []).getD j 0) := by
  have hia : i < a.length := by rw [ha.1]; exact hi
  have hib : i < b.length := by rw [hb.1]; exact hi
  have hja : j < (a.getD i []).length := by rw [mem_row_length ha.2 hia]; exact hj
  have hjb : j < (b.getD i []).length := by rw [mem_row_length hb.2 hib]; exact hj
  rw [addT, getD_zipWith_of_lt _ a b i [] [] [] hia hib]
  exact getD_zipWith_of_lt _ _ _ j 0 0 0 hja hjb

theorem sumDim0_isMat {bs dim : ℕ} : ∀ {T : List Tensor}, (∀ m ∈ T, IsMat bs dim m) →
    T ≠ [] → IsMat bs dim (sumDim0 T) := by
  intro T
  induction T with
  | nil => intro _ h; exact absurd rfl h
  | cons m ms ih =>
      intro hall _
      cases ms with
      | nil => exact hall m (by simp)
      | cons m2 ms2 =>
          rw [show sumDim0 (m :: m2 :: ms2) = addT m (sumDim0 (m2 :: ms2)) from rfl]
          exact addT_isMat (hall m (by simp))
            (ih (fun mm hmm => hall mm (List.mem_cons_of_mem _ hmm)) (by simp))

theorem sumDim0_entry {bs dim : ℕ} : ∀ {T : List Tensor}, (∀ m ∈ T, IsMat bs dim m) →
    ∀ {i j : ℕ}, i < bs → j < dim →
    (((sumDim0 T).getD i []).getD j 0) = (T.map (fun m => (m.getD i []).getD j 0)).sum := by
  intro T
  induction T with
  | nil => intro _ i j _ _; simp [sumDim0]
  | cons m ms ih =>
      intro hall i j hi hj
      cases ms with
      | nil => simp [sumDim0]
      | cons m2 ms2 =>
          rw [show sumDim0 (m :: m2 :: ms2) = addT m (sumDim0 (m2 :: ms2)) from rfl]
          have hrest : ∀ mm ∈ m2 :: ms2, IsMat bs dim mm :=
            fun mm hmm => hall mm (List.mem_cons_of_mem _ hmm)
          rw [addT_entry (hall m (by simp)) (sumDim0_isMat hrest (by simp)) hi hj,
            ih hrest hi hj]
          simp

theorem meanDim0_isMat {bs dim : ℕ} {T : List Tensor} (hall : ∀ m ∈ T, IsMat bs dim m)
    (hne : T ≠ []) : IsMat bs dim (meanDim0 T) := by
  obtain ⟨h1, h2⟩ := sumDim0_isMat hall hne
  constructor
  · simp [meanDim0, h1]
  · intro r hr
    obtain ⟨rr, hrr, hmap⟩ := List.mem_map.1 hr
    rw [← hmap, List.length_map]
    exact h2 rr hrr

theorem meanDim0_entry {bs dim : ℕ} {T : List Tensor} (hall : ∀ m ∈ T, IsMat bs dim m)
    (hne : T ≠ []) {i j : ℕ} (hi : i < bs) (hj : j < dim) :
    (((meanDim0 T).getD i []).getD j 0) =
      (T.map (fun m => (m.getD i []).getD j 0)).sum / (T.length : ℚ) := by
  obtain ⟨h1, h2⟩ := sumDim0_isMat hall hne
  have hi2 : i < (sumDim0 T).length := by rw [h1]; exact hi
  have hj2 : j < ((sumDim0 T).getD i []).length := by rw [mem_row_length h2 hi2]; exact hj
  rw [meanDim0, getD_map_of_lt _ _ i [] [] hi2, getD_map_of_lt _ _ j 0 0 hj2,
    sumDim0_entry hall hi hj]

theorem reshape3_pos {Nv bs dim : ℕ} {m : Tensor} (h1 : m.length = Nv * bs)
    (h2 : ∀ r ∈ m, r.length = dim) :
    reshape3 Nv bs dim m = some ((List.range Nv).map (fun k =>
      (List.range bs).map (fun i => m.getD (k * bs + i) []))) := by
  rw [reshape3, if_pos ⟨h1, h2⟩]

theorem chunks_isMat {Nv bs dim : ℕ} {m : Tensor} (h1 : m.length = Nv * bs)
    (h2 : ∀ r ∈ m, r.length = dim) :
    ∀ mk ∈ (List.range Nv).map (fun k => (List.range bs).map (fun i => m.getD (k * bs + i) [])),
      IsMat bs dim mk := by
  intro mk hmk
  obtain ⟨k, hk, rfl⟩ := List.mem_map.1 hmk
  rw [List.mem_range] at hk
  constructor
  · simp
  · intro r hr
    obtain ⟨i, hi, rfl⟩ := List.mem_map.1 hr
    rw [List.mem_range] at hi
    exact mem_row_length h2 (by rw [h1]; exact idx_bound hk hi)

theorem chunks_ne_nil (Nv bs : ℕ) (m : Tensor) (hNv : 1 ≤ Nv) :
    (List.range Nv).map (fun k => (List.range bs).map (fun i => m.getD (k * bs + i) [])) ≠ [] := by
  intro hc
  have hlen := congrArg List.length hc
  simp at hlen
  omega

theorem reshapeMean_entry {Nv bs dim : ℕ} {m : Tensor} (h1 : m.length = Nv * bs)
    (h2 : ∀ r ∈ m, r.length = dim) (hNv : 1 ≤ Nv) {i j : ℕ} (hi : i < bs) (hj : j < dim) :
    (((meanDim0 ((List.range Nv).map (fun k =>
        (List.range bs).map (fun i2 => m.getD (k * bs + i2) [])))).getD i []).getD j 0) =
      ((List.range Nv).map (fun k => ((m.getD (k * bs + i) []).getD j 0))).sum / (Nv : ℚ) := by
  rw [meanDim0_entry (chunks_isMat h1 h2) (chunks_ne_nil Nv bs m hNv) hi hj, List.map_map,
    List.length_map, List.length_range]
  congr 1
  congr 1
  refine List.map_congr_left (fun k hk => ?_)
  rw [List.mem_range] at hk
  simp only [Function.comp]
  rw [getD_range_map _ bs i [] hi]

theorem fwd_term_entry {grad_y dvf v : Tensor} {v_scale : ℚ} {N dim : ℕ}
    (hg : grad_y.length = N) (hd : dvf.length = N) (hv : v.length = N)
    (hvr : ∀ r ∈ v, r.length = dim) {idx j : ℕ} (hidx : idx < N) (hj : j < dim) :
    (((rowScale (rowDots grad_y dvf) (scaleT v_scale v)).getD idx []).getD j 0) =
      dot (grad_y.getD idx []) (dvf.getD idx []) * (v_scale * ((v.getD idx []).getD j 0)) := by
  have hgl : idx < grad_y.length := by rw [hg]; exact hidx
  have hdl : idx < dvf.length := by rw [hd]; exact hidx
  have h1 : idx < (rowDots grad_y dvf).length := by
    rw [rowDots, List.length_zipWith, hg, hd, inf_idem]; exact hidx
  have h3 : idx < v.length := by rw [hv]; exact hidx
  have h2 : idx < (scaleT v_scale v).length := by rw [scaleT, List.length_map]; exact h3
  have hrow : (scaleT v_scale v).getD idx [] = (v.getD idx []).map (fun q => v_scale * q) :=
    getD_map_of_lt _ _ idx [] [] h3
  have hj2 : j < (v.getD idx []).length := by rw [mem_row_length hvr h3]; exact hj
  rw [rowScale, getD_zipWith_of_lt _ _ _ idx 0 [] [] h1 h2, hrow, List.map_map,
    getD_map_of_lt _ _ j 0 0 hj2, rowDots, getD_zipWith_of_lt dot _ _ idx [] [] 0 hgl hdl]
  simp [Function.comp]

theorem fwd_term_length (v_scale : ℚ) {s : List ℚ} {v : Tensor} {N dim : ℕ}
    (hs : s.length = N) (hv : v.length = N) (hvr : ∀ r ∈ v, r.length = dim) :
    (rowScale s (scaleT v_scale v)).length = N ∧
      ∀ r ∈ rowScale s (scaleT v_scale v), r.length = dim := by
  have hsl : (scaleT v_scale v).length = N := by
    simp only [scaleT, List.length_map]
    exact hv
  constructor
  · rw [rowScale, List.length_zipWith, hs, hsl, inf_idem]
  · intro r hr
    simp only [rowScale] at hr
    obtain ⟨n, hn, rfl⟩ := List.mem_iff_getElem.1 hr
    rw [List.length_zipWith] at hn
    have hnv : n < (scaleT v_scale v).length := lt_of_lt_of_le hn inf_le_right
    have hnv2 : n < v.length := by rw [hsl] at hnv; rw [hv]; exact hnv
    rw [List.getElem_zipWith, List.length_map]
    simp only [scaleT]
    rw [List.getElem_map, List.length_map]
    exact hvr _ (List.getElem_mem hnv2)

theorem rowDots_length {a b : Tensor} {N : ℕ} (ha : a.length = N) (hb : b.length = N) :
    (rowDots a b).length = N := by
  rw [rowDots, List.length_zipWith, ha, hb, inf_idem]

theorem fwd_estimate_eq (v_scale : ℚ) {grad_y dvf v : Tensor} {Nv bs dim : ℕ}
    (hg : grad_y.length = Nv * bs) (hd : dvf.length = Nv * bs) (hv : v.length = Nv * bs)
    (hvr : ∀ r ∈ v, r.length = dim) (hNv : 1 ≤ Nv) :
    reshapeMean Nv bs dim (rowScale (rowDots grad_y dvf) (scaleT v_scale v)) =
      some (fwdGradFormula grad_y dvf v v_scale Nv bs dim) := by
  have hrd := rowDots_length hg hd
  obtain ⟨hm1, hm2⟩ := fwd_term_length v_scale hrd hv hvr
  rw [reshapeMean, reshape3_pos hm1 hm2, Option.map_some']
  congr 1
  have hmean := meanDim0_isMat (chunks_isMat hm1 hm2)
    (chunks_ne_nil Nv bs (rowScale (rowDots grad_y dvf) (scaleT v_scale v)) hNv)
  refine ext_getD _ _ [] ?_ (fun i hi => ?_)
  · rw [hmean.1, fwdGradFormula, List.length_map, List.length_range]
  · rw [hmean.1] at hi
    have hrow1 : ((meanDim0 ((List.range Nv).map (fun k =>
        (List.range bs).map (fun i2 => (rowScale (rowDots grad_y dvf)
          (scaleT v_scale v)).getD (k * bs + i2) [])))).getD i []).length = dim :=
      mem_row_length hmean.2 (by rw [hmean.1]; exact hi)
    have hrow2 : ((fwdGradFormula grad_y dvf v v_scale Nv bs dim).getD i []).length = dim := by
      rw [fwdGradFormula, getD_range_map _ bs i [] hi, List.length_map, List.length_range]
    refine ext_getD _ _ 0 (by rw [hrow1, hrow2]) (fun j hj => ?_)
    rw [hrow1] at hj
    rw [reshapeMean_entry hm1 hm2 hNv hi hj]
    rw [fwdGradFormula, getD_range_map _ bs i [] hi, getD_range_map _ dim j 0 hj]
    congr 1
    congr 1
    refine List.map_congr_left (fun k hk => ?_)
    rw [List.mem_range] at hk
    rw [fwd_term_entry hg hd hv hvr (idx_bound hk hi) hj]


theorem subT_isMat {bs dim : ℕ} {a b : Tensor} (ha : IsMat bs dim a) (hb : IsMat bs dim b) :
    IsMat bs dim (subT a b) := by
  constructor
  · simp [subT, List.length_zipWith, ha.1, hb.1]
  · intro r hr
    simp only [subT] at hr
    obtain ⟨n, hn, hr⟩ := List.mem_iff_getElem.1 hr
    rw [List.length_zipWith] at hn
    have hn2 : n < a.length := lt_of_lt_of_le hn inf_le_left
    have hn3 : n < b.length := lt_of_lt_of_le hn inf_le_right
    rw [← hr, List.getElem_zipWith, List.length_zipWith,
      ha.2 _ (List.getElem_mem hn2), hb.2 _ (List.getElem_mem hn3)]
    simp

theorem subT_entry {bs dim : ℕ} {a b : Tensor} (ha : IsMat bs dim a) (hb : IsMat bs dim b)
    {i j : ℕ} (hi : i < bs) (hj : j < dim) :
    (((subT a b).getD i []).getD j 0) = ((a.getD i []).getD j 0) - ((b.getD i []).getD j 0) := by
  have hia : i < a.length := by rw [ha.1]; exact hi
  have hib : i < b.length := by rw [hb.1]; exact hi
  have hja : j < (a.getD i []).length := by rw [mem_row_length ha.2 hia]; exact hj
  have hjb : j < (b.getD i []).length := by rw [mem_row_length hb.2 hib]; exact hj
  rw [subT, getD_zipWith_of_lt _ a b i [] [] [] hia hib]
  exact getD_zipWith_of_lt _ _ _ j 0 0 0 hja hjb

theorem divScalarT_isMat {bs dim : ℕ} {c : ℚ} {g : Tensor} (hg : IsMat bs dim g) :
    IsMat bs dim (divScalarT c g) := by
  constructor
  · simp [divScalarT, hg.1]
  · intro r hr
    simp only [divScalarT] at hr
    obtain ⟨rr, hrr, hmap⟩ := List.mem_map.1 hr
    rw [← hmap, List.length_map]
    exact hg.2 rr hrr

theorem divScalarT_entry {bs dim : ℕ} {c : ℚ} {g : Tensor} (hg : IsMat bs dim g)
    {i j : ℕ} (hi : i < bs) (hj : j < dim) :
    (((divScalarT c g).getD i []).getD j 0) = ((g.getD i []).getD j 0) / c := by
  have hig : i < g.length := by rw [hg.1]; exact hi
  have hjg : j < (g.getD i []).length := by rw [mem_row_length hg.2 hig]; exact hj
  rw [divScalarT, getD_map_of_lt _ _ i [] [] hig, getD_map_of_lt _ _ j 0 0 hjg]

theorem subT_subT_eq_addT_subT {bs dim : ℕ} {A B C : Tensor} (hA : IsMat bs dim A)
    (hB : IsMat bs dim B) (hC : IsMat bs dim C) :
    subT A (subT B C) = addT (subT A B) C := by
  have hBC := subT_isMat hB hC
  have hABC := subT_isMat hA hBC
  have hAB := subT_isMat hA hB
  have hABC2 := addT_isMat hAB hC
  refine ext_getD _ _ [] (by rw [hABC.1, hABC2.1]) (fun i hi => ?_)
  rw [hABC.1] at hi
  have hrow1 : ((subT A (subT B C)).getD i []).length = dim :=
    mem_row_length hABC.2 (by rw [hABC.1]; exact hi)
  have hrow2 : ((addT (subT A B) C).getD i []).length = dim :=
    mem_row_length hABC2.2 (by rw [hABC2.1]; exact hi)
  refine ext_getD _ _ 0 (by rw [hrow1, hrow2]) (fun j hj => ?_)
  rw [hrow1] at hj
  rw [subT_entry hA hBC hi hj, subT_entry hB hC hi hj, addT_entry hAB hC hi hj,
    subT_entry hA hB hi hj]
  ring


/-- C1: for `grad_type = "f_fwd"`, the backward gradient of the
custom-gradient node equals the mean over the `Nv` probe replicas of
`(upstream_gradient · dvf) * v * v_scale` (entrywise, replica `k` of sample
`i` at replicated row `k * bs + i`); for every `Nv ≥ 1` its shape is the
original (non-replicated) batch shape `[bs, dim]` of `x`, and for `Nv = 1`
it is the single-sample term `(grad_y · dvf) * (v_scale * v)` with no
averaging. -/
theorem backward_f_fwd_mean_shape (x : Tensor) (d : GradDict) (grad_y : Tensor)
    (hgt : d.grad_type = "f_fwd") (hNv : 1 ≤ d.Nv)
    (hv : d.v.length = d.Nv * x.length)
    (hvr : ∀ r ∈ d.v, r.length = numCols x)
    (hg : grad_y.length = d.Nv * x.length)
    (hd : d.dvf.length = d.Nv * x.length) :
    register_custom_grad_fn.backward ⟨(x, d.v), d⟩ grad_y =
        .ok (fwdGradFormula grad_y d.dvf d.v d.v_scale d.Nv x.length (numCols x)) ∧
      IsMat x.length (numCols x)
        (fwdGradFormula grad_y d.dvf d.v d.v_scale d.Nv x.length (numCols x)) ∧
      (d.Nv = 1 → fwdGradFormula grad_y d.dvf d.v d.v_scale d.Nv x.length (numCols x)
          = rowScale (rowDots grad_y d.dvf) (scaleT d.v_scale d.v)) := by
  have hF := fwd_estimate_eq d.v_scale hg hd hv hvr hNv
  refine ⟨?_, ⟨?_, ?_⟩, ?_⟩
  · simp only [register_custom_grad_fn.backward, hgt]
    rw [if_neg (by decide)]
    rw [hF]
    simp
  · simp [fwdGradFormula]
  · intro r hr
    simp only [fwdGradFormula] at hr
    obtain ⟨i, hi, rfl⟩ := List.mem_map.1 hr
    simp
  · intro h1
    rw [h1, one_mul] at hg hd hv
    have hF1 : IsMat x.length (numCols x)
        (fwdGradFormula grad_y d.dvf d.v d.v_scale d.Nv x.length (numCols x)) := by
      constructor
      · simp [fwdGradFormula]
      · intro r hr
        simp only [fwdGradFormula] at hr
        obtain ⟨i, hi, rfl⟩ := List.mem_map.1 hr
        simp
    have hrs := fwd_term_length d.v_scale (rowDots_length hg hd) hv hvr
    refine ext_getD _ _ [] (by rw [hF1.1, hrs.1]) (fun i hi => ?_)
    rw [hF1.1] at hi
    have hrow1 : ((fwdGradFormula grad_y d.dvf d.v d.v_scale d.Nv x.length
        (numCols x)).getD i []).length = numCols x :=
      mem_row_length hF1.2 (by rw [hF1.1]; exact hi)
    have hrow2 : ((rowScale (rowDots grad_y d.dvf) (scaleT d.v_scale d.v)).getD i []).length
        = numCols x :=
      mem_row_length hrs.2 (by rw [hrs.1]; exact hi)
    refine ext_getD _ _ 0 (by rw [hrow1, hrow2]) (fun j hj => ?_)
    rw [hrow1] at hj
    rw [fwd_term_entry hg hd hv hvr hi hj]
    rw [fwdGradFormula, getD_range_map _ _ i [] hi, getD_range_map _ _ j 0 hj, h1]
    rw [show List.range 1 = [0] from rfl]
    simp


theorem fwdGradFormula_isMat (grad_y dvf v : Tensor) (v_scale : ℚ) (Nv bs dim : ℕ) :
    IsMat bs dim (fwdGradFormula grad_y dvf v v_scale Nv bs dim) := by
  constructor
  · simp [fwdGradFormula]
  · intro r hr
    simp only [fwdGradFormula] at hr
    obtain ⟨i, hi, rfl⟩ := List.mem_map.1 hr
    simp

/-- Witness for C1: a concrete `Nv = 2`, `bs = 1`, `dim = 2` backward call
(`v_scale = 3`, upstream gradients `2` and `5`, directional derivatives `7`
and `11`, probes `(1,0)` and `(0,1)`), whose averaged gradient is
`[[21, 165/2]]`. -/
theorem backward_f_fwd_mean_shape_witness :
    register_custom_grad_fn.backward
      ⟨([[10, 20]], [[1, 0], [0, 1]]),
        ⟨⟨[], false⟩, [[7], [11]], ⟨[], false⟩, [], [[1, 0], [0, 1]], 3, 2, "f_fwd",
          fun _ => .error "", fun _ => .error ""⟩⟩ [[2], [5]] = .ok [[21, 165 / 2]] := by
  have h := backward_f_fwd_mean_shape [[10, 20]]
      ⟨⟨[], false⟩, [[7], [11]], ⟨[], false⟩, [], [[1, 0], [0, 1]], 3, 2, "f_fwd",
        fun _ => .error "", fun _ => .error ""⟩ [[2], [5]] rfl (by decide) (by decide)
      (by decide) (by decide) (by decide)
  refine h.1.trans (congrArg Except.ok ?_)
  norm_num [fwdGradFormula, dot, numCols, show List.range 2 = [0, 1] from rfl,
    show List.range 1 = [0] from rfl]

/-- C2: for `grad_type = "cv_fwd"`, the backward gradient is exactly
`f_fwd - (f_hat_fwd - f_hat_true)`, where `f_hat_fwd` follows the `f_fwd`
formula with the surrogate directional derivative `dvf_hat`, and
`f_hat_true` is the surrogate autograd gradient divided by `Nv`; and this
equals `f_fwd - f_hat_fwd + f_hat_true`. -/
theorem backward_cv_fwd_identity (x : Tensor) (d : GradDict) (grad_y gh : Tensor)
    (hgt : d.grad_type = "cv_fwd") (hNv : 1 ≤ d.Nv)
    (hv : d.v.length = d.Nv * x.length)
    (hvr : ∀ r ∈ d.v, r.length = numCols x)
    (hg : grad_y.length = d.Nv * x.length)
    (hd : d.dvf.length = d.Nv * x.length)
    (hdh : d.dvf_hat.length = d.Nv * x.length)
    (hgh : d.gradYhat grad_y = .ok gh)
    (hghm : IsMat x.length (numCols x) gh) :
    register_custom_grad_fn.backward ⟨(x, d.v), d⟩ grad_y =
        .ok (subT (fwdGradFormula grad_y d.dvf d.v d.v_scale d.Nv x.length (numCols x))
          (subT (fwdGradFormula grad_y d.dvf_hat d.v d.v_scale d.Nv x.length (numCols x))
            (divScalarT (d.Nv : ℚ) gh))) ∧
      subT (fwdGradFormula grad_y d.dvf d.v d.v_scale d.Nv x.length (numCols x))
          (subT (fwdGradFormula grad_y d.dvf_hat d.v d.v_scale d.Nv x.length (numCols x))
            (divScalarT (d.Nv : ℚ) gh)) =
        addT (subT (fwdGradFormula grad_y d.dvf d.v d.v_scale d.Nv x.length (numCols x))
            (fwdGradFormula grad_y d.dvf_hat d.v d.v_scale d.Nv x.length (numCols x)))
          (divScalarT (d.Nv : ℚ) gh) := by
  have hF := fwd_estimate_eq d.v_scale hg hd hv hvr hNv
  have hFh := fwd_estimate_eq d.v_scale hg hdh hv hvr hNv
  constructor
  · simp only [register_custom_grad_fn.backward, hgt]
    rw [if_neg (by decide), hF]
    simp [hFh, hgh, show ("cv_fwd" : String) ≠ "f_fwd" by decide,
      show ("cv_fwd" : String) ≠ "f_hat_true" by decide]
  · exact subT_subT_eq_addT_subT
      (fwdGradFormula_isMat grad_y d.dvf d.v d.v_scale d.Nv x.length (numCols x))
      (fwdGradFormula_isMat grad_y d.dvf_hat d.v d.v_scale d.Nv x.length (numCols x))
      (divScalarT_isMat hghm)

/-- Witness for C2: a concrete `Nv = 1` control-variate backward call with
`f_fwd = [[24]]`, `f_hat_fwd = [[30]]`, `f_hat_true = [[7]]`, returning
`24 - (30 - 7) = [[1]]`, which equals `24 - 30 + 7`. -/
theorem backward_cv_fwd_identity_witness :
    register_custom_grad_fn.backward
      ⟨([[0]], [[2]]),
        ⟨⟨[], false⟩, [[4]], ⟨[], false⟩, [[5]], [[2]], 1, 1, "cv_fwd",
          fun _ => .error "", fun _ => .ok [[7]]⟩⟩ [[3]] = .ok [[1]] ∧
      ([[1]] : Tensor) = addT (subT [[24]] [[30]]) [[7]] := by
  have h := backward_cv_fwd_identity [[0]]
      ⟨⟨[], false⟩, [[4]], ⟨[], false⟩, [[5]], [[2]], 1, 1, "cv_fwd",
        fun _ => .error "", fun _ => .ok [[7]]⟩ [[3]] [[7]] rfl (by decide) (by decide)
      (by decide) (by decide) (by decide) (by decide) rfl ⟨by decide, by decide⟩
  constructor
  · refine h.1.trans (congrArg Except.ok ?_)
    norm_num [fwdGradFormula, dot, numCols, subT, divScalarT,
      show List.range 1 = [0] from rfl]
  · norm_num [addT, subT]


/-- Counterexample for C3: a backward call under `grad_type = "f_hat_true"`
whose surrogate autograd gradient raises is NOT replaced by a zero
gradient — the exception propagates to the caller (the claim asserts it
never does). -/
theorem backward_surrogate_grad_error_counterexample :
    register_custom_grad_fn.backward
      ⟨([[0]], [[1]]),
        ⟨⟨[], false⟩, [[1]], ⟨[], false⟩, [[1]], [[1]], 1, 1, "f_hat_true",
          fun _ => .error "", fun _ => .error "RuntimeError"⟩⟩ [[1]] =
      .error "RuntimeError" := by
  have hF := fwd_estimate_eq 1 (show ([[1]] : Tensor).length = 1 * 1 by decide)
      (show ([[1]] : Tensor).length = 1 * 1 by decide)
      (show ([[1]] : Tensor).length = 1 * 1 by decide)
      (show ∀ r ∈ ([[1]] : Tensor), r.length = 1 by decide) (by decide)
  simp only [register_custom_grad_fn.backward]
  rw [if_neg (by decide)]
  rw [show (List.length ([[0]] : Tensor)) = 1 from rfl, show numCols ([[0]] : Tensor) = 1 from rfl,
    hF]
  simp [hF, show ("f_hat_true" : String) ≠ "f_fwd" by decide]

/-- C3 (amended): an exception while computing the exact gradient is caught
and replaced by a zero gradient only on the `f_true` path; on the
`f_hat_true` and `cv_fwd` paths the surrogate autograd exception is not
caught and propagates out of backward. -/
theorem backward_grad_exception_policy :
    (∀ (x : Tensor) (d : GradDict) (grad_y : Tensor) (e : String),
      d.grad_type = "f_true" → d.gradY grad_y = .error e →
      register_custom_grad_fn.backward ⟨(x, d.v), d⟩ grad_y = .ok (zeros_like x)) ∧
    (∀ (x : Tensor) (d : GradDict) (grad_y : Tensor) (e : String) (F Fh : Tensor),
      (d.grad_type = "f_hat_true" ∨ d.grad_type = "cv_fwd") →
      reshapeMean d.Nv x.length (numCols x)
        (rowScale (rowDots grad_y d.dvf) (scaleT d.v_scale d.v)) = some F →
      reshapeMean d.Nv x.length (numCols x)
        (rowScale (rowDots grad_y d.dvf_hat) (scaleT d.v_scale d.v)) = some Fh →
      d.gradYhat grad_y = .error e →
      register_custom_grad_fn.backward ⟨(x, d.v), d⟩ grad_y = .error e) := by
  constructor
  · intro x d grad_y e hgt herr
    simp only [register_custom_grad_fn.backward, hgt, if_true]
    rw [herr]
  · intro x d grad_y e F Fh hgt hF hFh herr
    rcases hgt with hgt | hgt
    · simp only [register_custom_grad_fn.backward, hgt]
      rw [if_neg (by decide), hF]
      simp [hFh, herr, show ("f_hat_true" : String) ≠ "f_fwd" by decide]
    · simp only [register_custom_grad_fn.backward, hgt]
      rw [if_neg (by decide), hF]
      simp [hFh, herr, show ("cv_fwd" : String) ≠ "f_fwd" by decide]

/-- Witness for C3 (amended): concretely, a failing exact gradient under
`f_true` yields the zero gradient `[[0]]`, while a failing surrogate
gradient under `f_hat_true` propagates the error. -/
theorem backward_grad_exception_policy_witness :
    register_custom_grad_fn.backward
        ⟨([[5]], [[1]]),
          ⟨⟨[], false⟩, [[1]], ⟨[], false⟩, [[1]], [[1]], 1, 1, "f_true",
            fun _ => .error "RuntimeError", fun _ => .error ""⟩⟩ [[1]] = .ok [[0]] ∧
      register_custom_grad_fn.backward
        ⟨([[5]], [[1]]),
          ⟨⟨[], false⟩, [[1]], ⟨[], false⟩, [[1]], [[1]], 1, 1, "f_hat_true",
            fun _ => .error "", fun _ => .error "RuntimeError"⟩⟩ [[1]] =
          .error "RuntimeError" := by
  constructor
  · have h := backward_grad_exception_policy.1 [[5]]
        ⟨⟨[], false⟩, [[1]], ⟨[], false⟩, [[1]], [[1]], 1, 1, "f_true",
          fun _ => .error "RuntimeError", fun _ => .error ""⟩ [[1]] "RuntimeError" rfl rfl
    exact h.trans (congrArg Except.ok (by norm_num [zeros_like]))
  · have hF := fwd_estimate_eq 1 (show ([[1]] : Tensor).length = 1 * 1 by decide)
        (show ([[1]] : Tensor).length = 1 * 1 by decide)
        (show ([[1]] : Tensor).length = 1 * 1 by decide)
        (show ∀ r ∈ ([[1]] : Tensor), r.length = 1 by decide) (by decide)
    exact backward_grad_exception_policy.2 [[5]]
        ⟨⟨[], false⟩, [[1]], ⟨[], false⟩, [[1]], [[1]], 1, 1, "f_hat_true",
          fun _ => .error "", fun _ => .error "RuntimeError"⟩ [[1]] "RuntimeError" _ _
        (Or.inl rfl) hF hF rfl


theorem divScalarT_subT_entry {a b : Tensor} {c : ℚ} {i j : ℕ}
    (hia : i < a.length) (hib : i < b.length)
    (hja : j < (a.getD i []).length) (hjb : j < (b.getD i []).length) :
    (((divScalarT c (subT a b)).getD i []).getD j 0) =
      (((a.getD i []).getD j 0) - ((b.getD i []).getD j 0)) / c := by
  have hisub : i < (subT a b).length := by
    rw [subT, List.length_zipWith]
    exact lt_inf_iff.mpr ⟨hia, hib⟩
  have hrow : (subT a b).getD i [] = List.zipWith (· - ·) (a.getD i []) (b.getD i []) :=
    getD_zipWith_of_lt _ _ _ i [] [] [] hia hib
  have hjsub : j < ((subT a b).getD i []).length := by
    rw [hrow, List.length_zipWith]
    exact lt_inf_iff.mpr ⟨hja, hjb⟩
  rw [divScalarT, getD_map_of_lt _ _ i [] [] hisub, getD_map_of_lt _ _ j 0 0 hjsub, hrow,
    getD_zipWith_of_lt _ _ _ j 0 0 0 hja hjb]

/-- C6: with positive `eps`, `jvp` returns for `forwardFD` the pair
`(f(x), (f(x+eps*v) - f(x))/eps)` and for `centralFD` the pair
`(f(x), (f(x+eps*v) - f(x-eps*v))/(2*eps))`; the value component is the
separate evaluation `f(x)` in both modes, and entrywise the directional
derivative is the corresponding difference quotient. -/
theorem jvp_finite_differences (f : DTensor → DTensor) (x v : Tensor) (eps : ℚ)
    (_heps : 0 < eps) :
    jvp f x v "forwardFD" eps =
        .ok (fEval f x, divScalarT eps (subT (fEval f (addT x (scaleT eps v))) (fEval f x))) ∧
      jvp f x v "centralFD" eps =
        .ok (fEval f x, divScalarT (2 * eps)
          (subT (fEval f (addT x (scaleT eps v))) (fEval f (subT x (scaleT eps v))))) ∧
      (∀ i j : ℕ, i < (fEval f x).length → i < (fEval f (addT x (scaleT eps v))).length →
        j < ((fEval f x).getD i []).length →
        j < ((fEval f (addT x (scaleT eps v))).getD i []).length →
        (((divScalarT eps (subT (fEval f (addT x (scaleT eps v)))
            (fEval f x))).getD i []).getD j 0) =
          ((((fEval f (addT x (scaleT eps v))).getD i []).getD j 0) -
            (((fEval f x).getD i []).getD j 0)) / eps) ∧
      (∀ i j : ℕ, i < (fEval f (subT x (scaleT eps v))).length →
        i < (fEval f (addT x (scaleT eps v))).length →
        j < ((fEval f (subT x (scaleT eps v))).getD i []).length →
        j < ((fEval f (addT x (scaleT eps v))).getD i []).length →
        (((divScalarT (2 * eps) (subT (fEval f (addT x (scaleT eps v)))
            (fEval f (subT x (scaleT eps v))))).getD i []).getD j 0) =
          ((((fEval f (addT x (scaleT eps v))).getD i []).getD j 0) -
            (((fEval f (subT x (scaleT eps v))).getD i []).getD j 0)) / (2 * eps)) := by
  refine ⟨?_, ?_, ?_, ?_⟩
  · rw [jvp, if_neg (by decide), if_pos rfl]
  · rw [jvp, if_neg (by decide), if_neg (by decide), if_pos rfl]
  · intro i j hia hib hja hjb
    exact divScalarT_subT_entry hib hia hjb hja
  · intro i j hia hib hja hjb
    exact divScalarT_subT_entry hib hia hjb hja

/-- Witness for C6: the sphere function at `x = [[3, 4]]`, `v = [[1, 0]]`,
`eps = 1`: forward difference gives `dvf = 7`, central difference `6`,
value `25` in both modes. -/
theorem jvp_finite_differences_witness :
    jvp sphere [[3, 4]] [[1, 0]] "forwardFD" 1 = .ok ([[25]], [[7]]) ∧
      jvp sphere [[3, 4]] [[1, 0]] "centralFD" 1 = .ok ([[25]], [[6]]) := by
  have h := jvp_finite_differences sphere [[3, 4]] [[1, 0]] 1 (by norm_num)
  constructor
  · refine h.1.trans (congrArg Except.ok ?_)
    norm_num [fEval, make_dual, unpack_dual, zeros_like, addT, subT, scaleT, divScalarT,
      sphere, dualAdd, dualMul]
  · refine h.2.1.trans (congrArg Except.ok ?_)
    norm_num [fEval, make_dual, unpack_dual, zeros_like, addT, subT, scaleT, divScalarT,
      sphere, dualAdd, dualMul]

/-- C7: an unrecognized `jvp_type` makes `jvp` raise `NotImplementedError`,
and an unrecognized `grad_type` makes backward raise `NotImplementedError`
(once the estimator terms themselves computed); neither is silently
defaulted to a supported mode. -/
theorem unrecognized_mode_not_implemented :
    (∀ (f : DTensor → DTensor) (x v : Tensor) (jt : String) (eps : ℚ),
      jt ≠ "forwardAD" → jt ≠ "forwardFD" → jt ≠ "centralFD" →
      jvp f x v jt eps = .error "NotImplementedError") ∧
    (∀ (x : Tensor) (d : GradDict) (grad_y g F Fh : Tensor),
      d.grad_type ≠ "f_true" → d.grad_type ≠ "f_fwd" → d.grad_type ≠ "f_hat_true" →
      d.grad_type ≠ "cv_fwd" →
      reshapeMean d.Nv x.length (numCols x)
        (rowScale (rowDots grad_y d.dvf) (scaleT d.v_scale d.v)) = some F →
      reshapeMean d.Nv x.length (numCols x)
        (rowScale (rowDots grad_y d.dvf_hat) (scaleT d.v_scale d.v)) = some Fh →
      d.gradYhat grad_y = .ok g →
      register_custom_grad_fn.backward ⟨(x, d.v), d⟩ grad_y = .error "NotImplementedError") := by
  constructor
  · intro f x v jt eps h1 h2 h3
    rw [jvp, if_neg h1, if_neg h2, if_neg h3]
  · intro x d grad_y g F Fh h1 h2 h3 h4 hF hFh hg
    simp only [register_custom_grad_fn.backward]
    rw [if_neg h1, hF]
    simp [hFh, hg, h2, h3, h4]

/-- Witness for C7: `jvp_type = "foo"` and `grad_type = "bar"` each produce
`NotImplementedError`. -/
theorem unrecognized_mode_not_implemented_witness :
    jvp sphere [[1]] [[1]] "foo" 1 = .error "NotImplementedError" ∧
      register_custom_grad_fn.backward
        ⟨([[0]], [[1]]),
          ⟨⟨[], false⟩, [[1]], ⟨[], false⟩, [[1]], [[1]], 1, 1, "bar",
            fun _ => .error "", fun _ => .ok [[2]]⟩⟩ [[1]] =
        .error "NotImplementedError" := by
  constructor
  · exact unrecognized_mode_not_implemented.1 sphere [[1]] [[1]] "foo" 1 (by decide) (by decide)
      (by decide)
  · have hF := fwd_estimate_eq 1 (show ([[1]] : Tensor).length = 1 * 1 by decide)
        (show ([[1]] : Tensor).length = 1 * 1 by decide)
        (show ([[1]] : Tensor).length = 1 * 1 by decide)
        (show ∀ r ∈ ([[1]] : Tensor), r.length = 1 by decide) (by decide)
    exact unrecognized_mode_not_implemented.2 [[0]]
        ⟨⟨[], false⟩, [[1]], ⟨[], false⟩, [[1]], [[1]], 1, 1, "bar",
          fun _ => .error "", fun _ => .ok [[2]]⟩ [[1]] [[2]] _ _ (by decide) (by decide)
        (by decide) (by decide) hF hF rfl

/-- C8: the forward pass of the custom-gradient node returns
`d["y"].detach()` — numerically identical to `y` with autograd tracking
cleared — and this value is the same for every `grad_type`: estimator
selection touches only the backward pass. -/
theorem forward_returns_detached_y (x : TensorG) (d : GradDict) :
    register_custom_grad_fn.forward x d = (d.y.detach, ⟨(x.data, d.v), d⟩) ∧
      (register_custom_grad_fn.forward x d).1.data = d.y.data ∧
      (register_custom_grad_fn.forward x d).1.requires_grad = false ∧
      ∀ gt : String, (register_custom_grad_fn.forward x { d with grad_type := gt }).1 =
        (register_custom_grad_fn.forward x d).1 :=
  ⟨rfl, rfl, rfl, fun _ => rfl⟩


theorem sphere_row_fold (rx rv : List ℚ) (h : rx.length = rv.length) :
    (List.zipWith Prod.mk rx rv).foldr (fun a s => dualAdd (dualMul a a) s) ((0 : ℚ), (0 : ℚ)) =
      ((rx.map (fun a => a * a)).sum, 2 * dot rx rv) := by
  induction rx generalizing rv with
  | nil =>
      cases rv with
      | nil => simp [dot]
      | cons b tb => simp at h
  | cons a ta ih =>
      cases rv with
      | nil => simp at h
      | cons b tb =>
          simp only [List.zipWith_cons_cons, List.foldr_cons]
          rw [ih tb (by simpa using h)]
          simp only [dualAdd, dualMul, dot, List.zipWith_cons_cons, List.map_cons,
            List.sum_cons, Prod.mk.injEq]
          exact ⟨by ring_nf, by ring⟩

theorem sphere_dual_unpack : ∀ (x v : Tensor), x.length = v.length →
    (∀ p ∈ x.zip v, p.1.length = p.2.length) →
    unpack_dual (sphere (make_dual x v)) =
      (x.map (fun r => [(r.map (fun a => a * a)).sum]),
        (x.zip v).map (fun p => [2 * dot p.1 p.2])) := by
  intro x
  induction x with
  | nil =>
      intro v h _
      cases v with
      | nil => rfl
      | cons rv tv => simp at h
  | cons rx tx ih =>
      intro v h hrows
      cases v with
      | nil => simp at h
      | cons rv tv =>
          have hrow : rx.length = rv.length := hrows (rx, rv) (by simp [List.zip_cons_cons])
          have ihh := ih tv (by simpa using h)
            (fun p hp => hrows p (by simp [List.zip_cons_cons]; right; exact hp))
          have h1 := congrArg Prod.fst ihh
          have h2 := congrArg Prod.snd ihh
          simp only [unpack_dual] at h1 h2
          simp only [make_dual, List.zipWith_cons_cons, sphere, List.map_cons, unpack_dual,
            List.zip_cons_cons, Prod.mk.injEq]
          rw [sphere_row_fold rx rv hrow]
          constructor
          · simp only [List.map_cons]
            refine congrArg (_ :: ·) ?_
            simpa [sphere, make_dual, unpack_dual] using h1
          · simp only [List.map_cons]
            refine congrArg (_ :: ·) ?_
            simpa [sphere, make_dual, unpack_dual] using h2

/-- C9: in exact dual-number mode (`forwardAD`), `jvp` on the sphere
function returns per sample the value `Σ x_i²` and the exact directional
derivative `2 * (x · v)`. -/
theorem jvp_sphere_forwardAD (x v : Tensor) (eps : ℚ) (hl : x.length = v.length)
    (hr : ∀ p ∈ x.zip v, p.1.length = p.2.length) :
    jvp sphere x v "forwardAD" eps =
      .ok (x.map (fun r => [(r.map (fun a => a * a)).sum]),
        (x.zip v).map (fun p => [2 * dot p.1 p.2])) := by
  simp only [jvp, if_true]
  rw [sphere_dual_unpack x v hl hr]

/-- Witness for C9: at `x = [[3, 4]]`, `v = [[1, 0]]` the exact mode
returns `y = 25` and `dvf = 2 * 3 = 6`. -/
theorem jvp_sphere_forwardAD_witness :
    jvp sphere [[3, 4]] [[1, 0]] "forwardAD" 1 = .ok ([[25]], [[6]]) := by
  have h := jvp_sphere_forwardAD [[3, 4]] [[1, 0]] 1 (by decide) (by decide)
  refine h.trans (congrArg Except.ok ?_)
  norm_num [dot, List.zip_cons_cons]


/-! CSR round-trip lemmas. -/

theorem sliceEntry_rowNNZ_lt : ∀ (r : List ℚ) (k j : ℕ), j < k →
    sliceEntry (rowNNZ k r) j = 0 := by
  intro r
  induction r with
  | nil => intro k j _; simp [rowNNZ, sliceEntry]
  | cons a t ih =>
      intro k j hj
      rw [rowNNZ]
      by_cases ha : a = 0
      · rw [if_pos ha]
        exact ih (k + 1) j (by omega)
      · rw [if_neg ha, sliceEntry, if_neg (by omega)]
        rw [ih (k + 1) j (by omega)]
        ring

theorem sliceEntry_rowNNZ : ∀ (r : List ℚ) (k j : ℕ), j < r.length →
    sliceEntry (rowNNZ k r) (k + j) = r.getD j 0 := by
  intro r
  induction r with
  | nil => intro k j h; simp at h
  | cons a t ih =>
      intro k j hj
      rw [rowNNZ]
      cases j with
      | zero =>
          by_cases ha : a = 0
          · rw [if_pos ha, sliceEntry_rowNNZ_lt t (k + 1) (k + 0) (by omega)]
            simp [ha]
          · rw [if_neg ha, sliceEntry, if_pos (by omega),
              sliceEntry_rowNNZ_lt t (k + 1) (k + 0) (by omega)]
            simp
      | succ j2 =>
          have hrec : sliceEntry (rowNNZ (k + 1) t) (k + (j2 + 1)) = t.getD j2 0 := by
            have := ih (k + 1) j2 (by simpa using hj)
            rwa [show k + 1 + j2 = k + (j2 + 1) by omega] at this
          by_cases ha : a = 0
          · rw [if_pos ha, hrec]
            simp
          · rw [if_neg ha, sliceEntry, if_neg (by omega), hrec]
            simp

theorem flatten_slice {α : Type} : ∀ (L : List (List α)) (i : ℕ), i < L.length →
    ((L.flatten.drop (((L.take i).map List.length).sum)).take (L.getD i []).length)
      = L.getD i [] := by
  intro L
  induction L with
  | nil => intro i h; simp at h
  | cons A rest ih =>
      intro i h
      cases i with
      | zero => simp [List.take_left]
      | succ i2 =>
          simp only [List.take_succ_cons, List.map_cons, List.sum_cons, List.flatten_cons,
            List.getD_cons_succ]
          rw [List.drop_append]
          exact ih i2 (by simpa using h)

theorem dense2csr_rowptr_getD (A : DenseMat) (i : ℕ) (h : i < A.nrows + 1) :
    (dense2csr A).rowptr.getD i 0
      = ((A.rows.take i).map (fun r => (rowNNZ 0 r).length)).sum := by
  simp only [dense2csr]
  exact getD_range_map _ _ i 0 h

theorem dense2csr_zip (A : DenseMat) :
    (dense2csr A).colidx.zip (dense2csr A).values
      = (A.rows.map (fun r => rowNNZ 0 r)).flatten := by
  simp only [dense2csr]
  have h1 : A.rows.map (fun r => (rowNNZ 0 r).map Prod.fst)
      = (A.rows.map (fun r => rowNNZ 0 r)).map (List.map Prod.fst) := by
    rw [List.map_map]
    rfl
  have h2 : A.rows.map (fun r => (rowNNZ 0 r).map Prod.snd)
      = (A.rows.map (fun r => rowNNZ 0 r)).map (List.map Prod.snd) := by
    rw [List.map_map]
    rfl
  rw [h1, h2, ← List.map_flatten, ← List.map_flatten, zip_map_fst_snd]

theorem dense2csr_rowSlice (A : DenseMat) (i : ℕ) (hlen : A.rows.length = A.nrows)
    (h : i < A.nrows) :
    (dense2csr A).rowSlice i = rowNNZ 0 (A.rows.getD i []) := by
  have hi : i < A.rows.length := by rw [hlen]; exact h
  rw [PETScMat.rowSlice, dense2csr_rowptr_getD A i (by omega),
    dense2csr_rowptr_getD A (i + 1) (by omega), dense2csr_zip]
  have hC : ∀ n : ℕ, ((A.rows.take n).map (fun r => (rowNNZ 0 r).length)).sum
      = (((A.rows.map (fun r => rowNNZ 0 r)).take n).map List.length).sum := by
    intro n
    rw [← List.map_take, List.map_map]
    rfl
  have hgetD : (A.rows.map (fun r => rowNNZ 0 r)).getD i [] = rowNNZ 0 (A.rows.getD i []) :=
    getD_map_of_lt _ _ i [] [] hi
  have hsucc : ((A.rows.take (i + 1)).map (fun r => (rowNNZ 0 r).length)).sum
      = ((A.rows.take i).map (fun r => (rowNNZ 0 r).length)).sum
        + (rowNNZ 0 (A.rows.getD i [])).length := by
    have hlen2 : i < (A.rows.map (fun r => (rowNNZ 0 r).length)).length := by simpa using hi
    have hs := List.sum_take_succ (A.rows.map (fun r => (rowNNZ 0 r).length)) i hlen2
    rw [← List.map_take, ← List.map_take] at hs
    rw [hs, List.getElem_map]
    rw [List.getD_eq_getElem _ _ hi]
  rw [hsucc]
  have hdrop : ((A.rows.take i).map (fun r => (rowNNZ 0 r).length)).sum
      + (rowNNZ 0 (A.rows.getD i [])).length
      - ((A.rows.take i).map (fun r => (rowNNZ 0 r).length)).sum
      = (rowNNZ 0 (A.rows.getD i [])).length := by omega
  rw [hdrop, hC]
  have hfs := flatten_slice (A.rows.map (fun r => rowNNZ 0 r)) i (by simpa using hi)
  rwa [hgetD] at hfs

theorem toDense_dense2csr (A : DenseMat) (hlen : A.rows.length = A.nrows)
    (hrect : ∀ r ∈ A.rows, r.length = A.ncols) :
    (dense2csr A).toDense = A.rows := by
  rw [PETScMat.toDense]
  have h1 : (dense2csr A).nrows = A.nrows := rfl
  have h2 : (dense2csr A).ncols = A.ncols := rfl
  rw [h1, h2]
  refine ext_getD _ _ [] (by simp [hlen]) (fun i hi => ?_)
  rw [List.length_map, List.length_range] at hi
  have hi2 : i < A.rows.length := by rw [hlen]; exact hi
  rw [getD_range_map _ _ i [] hi, dense2csr_rowSlice A i hlen hi]
  have hrow : (A.rows.getD i []).length = A.ncols := mem_row_length hrect hi2
  refine ext_getD _ _ 0 (by rw [List.length_map, List.length_range]; exact hrow.symm)
    (fun j hj => ?_)
  rw [List.length_map, List.length_range] at hj
  rw [getD_range_map _ _ j 0 hj]
  have hse := sliceEntry_rowNNZ (A.rows.getD i []) 0 j (by rw [hrow]; exact hj)
  simpa using hse

theorem truncInt_intCast (m : ℤ) : truncInt (m : ℚ) = m := by
  rw [truncInt]
  by_cases h : (0 : ℚ) ≤ (m : ℚ)
  · rw [if_pos h, Int.floor_intCast]
  · rw [if_neg h, Int.ceil_intCast]

theorem npIsClose_self (r : ℚ) : npIsClose r r = true := by
  simp only [npIsClose, decide_eq_true_eq, sub_self, abs_zero]
  positivity


/-- C10: `torch2petsc` does not carry over `params` — the constructed
sparse task has `params = None` regardless of the input — while
`petsc2torch` copies `params` through unchanged; hence a round trip through
`torch2petsc` loses `params`. -/
theorem torch2petsc_drops_params (t : PyTorchLinearSystemTask) (s : PETScLinearSystemTask) :
    (torch2petsc t).params = none ∧ (petsc2torch s).params = s.params ∧
      (petsc2torch (torch2petsc t)).params = none :=
  ⟨rfl, rfl, rfl⟩

/-- Counterexample for C4: with equal matrix and vector fields, comparing a
present ground truth against an absent one raises (`TypeError`) in the
dense representation instead of returning False; likewise the sparse
representation raises (`TypeError` here, since `other.x` is `None`). -/
theorem task_eq_presence_mismatch_counterexample :
    PyTorchLinearSystemTask.eq ⟨none, ⟨1, 1, [[1]]⟩, [1], some [1], 1, 1⟩
        ⟨none, ⟨1, 1, [[1]]⟩, [1], none, 1, 1⟩ = .error "TypeError" ∧
      PETScLinearSystemTask.eq ⟨none, ⟨1, 1, [0, 1], [0], [2]⟩, [1], some [1], 1, 1, none⟩
        ⟨none, ⟨1, 1, [0, 1], [0], [2]⟩, [1], none, 1, 1, none⟩ = .error "TypeError" := by
  constructor
  · rw [PyTorchLinearSystemTask.eq]
    norm_num
  · rw [PETScLinearSystemTask.eq]
    norm_num [PETScMat.equal]

/-- C4 (amended): task equality is element-wise numerical equality of the
fields, the ground truth counting as equal when absent on both sides; but
whenever the matrix and vector fields compare equal and exactly one side's
ground truth is absent, equality raises (`TypeError` for dense tensors;
`TypeError` or `AttributeError` for the sparse representation) instead of
returning False. -/
theorem task_eq_presence_mismatch_raises :
    (∀ s o : PyTorchLinearSystemTask, s.A = o.A → s.b = o.b →
      s.x.isSome ≠ o.x.isSome → s.eq o = .error "TypeError") ∧
    (∀ s o : PETScLinearSystemTask, s.A.equal o.A = true → s.b = o.b →
      s.x.isSome ≠ o.x.isSome → ∃ e, s.eq o = .error e) := by
  constructor
  · intro s o hA hb hx
    rw [PyTorchLinearSystemTask.eq, if_neg (by simp [hA]), if_neg (by simp [hb])]
    rcases hsx : s.x with _ | sx <;> rcases hox : o.x with _ | ox
    · rw [hsx, hox] at hx
      simp at hx
    · rfl
    · rfl
    · rw [hsx, hox] at hx
      simp at hx
  · intro s o hA hb hx
    rw [PETScLinearSystemTask.eq, if_neg (by simp [hA]), if_neg (by simp [hb])]
    rcases hsx : s.x with _ | sx <;> rcases hox : o.x with _ | ox
    · rw [hsx, hox] at hx
      simp at hx
    · exact ⟨"AttributeError", rfl⟩
    · exact ⟨"TypeError", rfl⟩
    · rw [hsx, hox] at hx
      simp at hx

/-- Witness for C4 (amended): an absent-versus-present ground truth raises
in both representations on otherwise equal tasks. -/
theorem task_eq_presence_mismatch_raises_witness :
    PyTorchLinearSystemTask.eq ⟨none, ⟨1, 1, [[2]]⟩, [3], none, 1, 1⟩
        ⟨none, ⟨1, 1, [[2]]⟩, [3], some [3], 1, 1⟩ = .error "TypeError" ∧
      (∃ e, PETScLinearSystemTask.eq ⟨none, ⟨1, 1, [0, 1], [0], [5]⟩, [3], none, 1, 1, none⟩
        ⟨none, ⟨1, 1, [0, 1], [0], [5]⟩, [3], some [3], 1, 1, none⟩ = .error e) := by
  constructor
  · exact task_eq_presence_mismatch_raises.1 _ _ rfl rfl (by decide)
  · exact task_eq_presence_mismatch_raises.2 _ _ (by simp [PETScMat.equal]) rfl (by decide)

/-- Counterexample for C5: the dense task with the non-integer scalar
`maxiter = 5/2` does not survive the reverse round trip: `int()` truncates
it to `2`, so `petsc2torch (torch2petsc T)` compares unequal to `T`. -/
theorem task_round_trip_counterexample :
    PyTorchLinearSystemTask.eq
        (petsc2torch (torch2petsc ⟨none, ⟨1, 1, [[1]]⟩, [1], none, 1, 5 / 2⟩))
        ⟨none, ⟨1, 1, [[1]]⟩, [1], none, 1, 5 / 2⟩ = .ok false := by
  have hA : (dense2csr ⟨1, 1, [[1]]⟩).toDense = [[1]] :=
    toDense_dense2csr ⟨1, 1, [[1]]⟩ (by decide) (by decide)
  have ht : truncInt (5 / 2 : ℚ) = 2 := by
    rw [truncInt, if_pos (by norm_num), Int.floor_eq_iff]
    norm_num
  rw [PyTorchLinearSystemTask.eq]
  simp only [petsc2torch, torch2petsc, hA, ht]
  norm_num

/-- C5 (amended): for every sparse task `T`, `torch2petsc (petsc2torch T)`
is numerically equal to `T` (matrix size and entries, vector entries,
`rtol` and `maxiter` preserved exactly); the reverse round trip
`petsc2torch (torch2petsc T)` equals `T` for every well-formed dense task
(rows matching the tensor shape) whose `maxiter` tensor holds an integer
value — a fractional `maxiter` is truncated by `int()` and breaks the
round trip. -/
theorem task_round_trip :
    (∀ T : PETScLinearSystemTask,
      PETScLinearSystemTask.eq (torch2petsc (petsc2torch T)) T = .ok true) ∧
    (∀ T : PyTorchLinearSystemTask, T.A.rows.length = T.A.nrows →
      (∀ r ∈ T.A.rows, r.length = T.A.ncols) →
      (∃ z : ℤ, T.maxiter = (z : ℚ)) →
      PyTorchLinearSystemTask.eq (petsc2torch (torch2petsc T)) T = .ok true) := by
  constructor
  · intro T
    have hlen : (⟨T.A.nrows, T.A.ncols, T.A.toDense⟩ : DenseMat).rows.length
        = (⟨T.A.nrows, T.A.ncols, T.A.toDense⟩ : DenseMat).nrows := by
      simp [PETScMat.toDense]
    have hrect : ∀ r ∈ (⟨T.A.nrows, T.A.ncols, T.A.toDense⟩ : DenseMat).rows,
        r.length = (⟨T.A.nrows, T.A.ncols, T.A.toDense⟩ : DenseMat).ncols := by
      intro r hr
      simp only [PETScMat.toDense] at hr
      obtain ⟨i, hi, rfl⟩ := List.mem_map.1 hr
      simp
    have h3 : (dense2csr ⟨T.A.nrows, T.A.ncols, T.A.toDense⟩).toDense = T.A.toDense :=
      toDense_dense2csr _ hlen hrect
    have hA : (dense2csr ⟨T.A.nrows, T.A.ncols, T.A.toDense⟩).equal T.A = true := by
      simp [PETScMat.equal, h3]
      exact ⟨rfl, rfl⟩
    rw [PETScLinearSystemTask.eq]
    simp only [torch2petsc, petsc2torch]
    rw [if_neg (by simp [hA]), if_neg (by simp)]
    rcases T.x with _ | xv
    · simp [npIsClose_self, truncInt_intCast]
    · simp [npIsClose_self, truncInt_intCast]
  · intro T hlen hrect hint
    obtain ⟨z, hz⟩ := hint
    have hA : (dense2csr T.A).toDense = T.A.rows := toDense_dense2csr T.A hlen hrect
    have hAA : (⟨(dense2csr T.A).nrows, (dense2csr T.A).ncols, (dense2csr T.A).toDense⟩
        : DenseMat) = T.A := by
      show (⟨T.A.nrows, T.A.ncols, (dense2csr T.A).toDense⟩ : DenseMat) = T.A
      rw [hA]
    rw [PyTorchLinearSystemTask.eq]
    simp only [petsc2torch, torch2petsc]
    rw [if_neg (by simp [hAA]), if_neg (by simp)]
    rcases T.x with _ | xv
    · simp [hz, truncInt_intCast]
    · simp [hz, truncInt_intCast]

/-- Witness for C5 (amended): a concrete `1 × 1` sparse task with
`maxiter = 7` survives the sparse round trip, and a concrete dense task
with integer `maxiter = 9` and ground truth present survives the dense
round trip. -/
theorem task_round_trip_witness :
    PETScLinearSystemTask.eq
        (torch2petsc (petsc2torch ⟨none, ⟨1, 1, [0, 1], [0], [3]⟩, [1], none, 1, 7, none⟩))
        ⟨none, ⟨1, 1, [0, 1], [0], [3]⟩, [1], none, 1, 7, none⟩ = .ok true ∧
      PyTorchLinearSystemTask.eq
        (petsc2torch (torch2petsc ⟨none, ⟨1, 1, [[4]]⟩, [2], some [2], 1, 9⟩))
        ⟨none, ⟨1, 1, [[4]]⟩, [2], some [2], 1, 9⟩ = .ok true := by
  constructor
  · exact task_round_trip.1 _
  · exact task_round_trip.2 _ (by decide) (by decide) ⟨9, by norm_num⟩


end Nigbms
